import Mathlib

/-!
Verification of the distributed node communication system (`main.go`).

The Go program is shallowly embedded as follows.

* `Message` mirrors the Go struct `Message` (fields `Type`, `Content`, `From`;
  Lean field `«from»` since `from` is a Lean keyword).
* Go maps `map[int]string` / `map[int]net.Conn` are modelled as association
  lists with Go map semantics: `mapLookup` finds the entry for a key,
  `mapInsert` overwrites an existing entry or appends a new one.
* `net.Conn` handles are opaque; they are modelled as natural numbers
  (`Conn`).  The outcome of `net.Dial` is supplied to `connectToPeer` as an
  oracle argument of type `Option Conn` (`none` = dial error).
* Methods on `*Node` become functions `Node → args → Node × List Event`:
  the returned `Node` is the post-state and `Event` records the externally
  visible actions (log lines, the sleep, send-path invocations, and bytes
  written to a connection).  An `Event.send target msg` records a call of
  `Node.sendMessage`; `resolve` turns such a call into its low-level effects
  (`Event.write` or `Event.logNoConn`) by consulting the connection registry,
  exactly as `sendMessage` (main.go lines 114–128) does.
* The `encoding/json` codec used by `sendMessage` (json.NewEncoder(conn).Encode)
  and `handleConnection` (json.NewDecoder(conn).Decode) is modelled by
  `encodeMsg` / `decodeMsg` below, which reproduce Go's JSON marshalling of
  this struct: fields in declaration order, strings escaped as Go's encoder
  does (quote, backslash, \n \r \t, other control characters as \u00xx,
  HTML-escaping of < > & and of U+2028/U+2029), integers in decimal, and a
  trailing newline per encoded value.
* The mutex (`sync.RWMutex`) only serialises access in the concurrent Go
  program; the sequential embedding needs no counterpart for it.
-/

/-- Wire message, mirroring the Go struct `Message` (main.go lines 16–20). -/
structure Message where
  type : String
  content : String
  «from» : Int
  deriving DecidableEq, Repr

/-- Opaque connection handle standing in for `net.Conn`. -/
abbrev Conn := Nat

/-- Node state, mirroring the Go struct `Node` (main.go lines 22–28): identity,
master flag, peer-address map and connection map.  The `sync.RWMutex` field has
no sequential counterpart. -/
structure Node where
  ID : Int
  IsMaster : Bool
  Peers : List (Int × String)
  conn : List (Int × Conn)
  deriving DecidableEq, Repr

/-- Lookup in a Go map modelled as an association list: the value stored for
`k`, if any (`m[k]` with its `ok` flag folded into `Option`). -/
def mapLookup : List (Int × α) → Int → Option α
  | [], _ => none
  | (k', v) :: m, k => if k' = k then some v else mapLookup m k

/-- Insertion into a Go map modelled as an association list: `m[k] = v`
overwrites the entry for `k` when present, otherwise appends it. -/
def mapInsert : List (Int × α) → Int → α → List (Int × α)
  | [], k, v => [(k, v)]
  | (k', v') :: m, k, v => if k' = k then (k, v) :: m else (k', v') :: mapInsert m k v

/-- Key set of a modelled Go map, in entry order. -/
def mapKeys (m : List (Int × α)) : List Int :=
  m.map Prod.fst

/-- Constructor `NewNode` (main.go lines 30–38): fresh node with empty peer and
connection maps. -/
def NewNode (id : Int) (isMaster : Bool) : Node :=
  { ID := id, IsMaster := isMaster, Peers := [], conn := [] }

/-- Externally visible actions of the node.  Log lines correspond to the
`fmt.Printf` / `log.Printf` calls, `sleep` to `time.Sleep`, `send` to an
invocation of `Node.sendMessage`, and `write` to bytes written on a
connection by the JSON encoder. -/
inductive Event where
  | logHeartbeatFrom («from» : Int)
  | logTaskFrom («from» : Int) (content : String)
  | logResultFrom («from» : Int) (content : String)
  | sleep
  | send (target : Int) (msg : Message)
  | logNoConn (target : Int)
  | write (c : Conn) (bytes : List Char)
  deriving DecidableEq, Repr

/-- Go's JSON string escaping of one character, as performed by
`encoding/json` with the default HTML escaping: quote and backslash escaped,
`\n` `\r` `\t` shortened, other control characters written `\u00xx` in
lowercase hex, `<` `>` `&` and U+2028/U+2029 written as `\u....` escapes,
every other character copied verbatim. -/
def escChar (c : Char) : List Char :=
  if c = '"' then ['\\', '"']
  else if c = '\\' then ['\\', '\\']
  else if c = '\n' then ['\\', 'n']
  else if c = '\r' then ['\\', 'r']
  else if c = '\t' then ['\\', 't']
  else if c.toNat < 32 then
    ['\\', 'u', '0', '0', Nat.digitChar (c.toNat / 16), Nat.digitChar (c.toNat % 16)]
  else if c = '<' then ['\\', 'u', '0', '0', '3', 'c']
  else if c = '>' then ['\\', 'u', '0', '0', '3', 'e']
  else if c = '&' then ['\\', 'u', '0', '0', '2', '6']
  else if c = '\u2028' then ['\\', 'u', '2', '0', '2', '8']
  else if c = '\u2029' then ['\\', 'u', '2', '0', '2', '9']
  else [c]

/-- Go's JSON string escaping applied to a whole character sequence. -/
def escape : List Char → List Char
  | [] => []
  | c :: cs => escChar c ++ escape cs

/-- JSON encoding of a Go string: quoted and escaped. -/
def encStr (s : String) : List Char :=
  '"' :: (escape s.data ++ ['"'])

/-- Decimal digits, most significant first, computed with explicit fuel so
that the definition is structurally recursive; `natDigits` supplies enough
fuel for any input. -/
def natDigitsAux : Nat → Nat → List Char
  | 0, _ => []
  | f + 1, n =>
    if n < 10 then [Nat.digitChar n]
    else natDigitsAux f (n / 10) ++ [Nat.digitChar (n % 10)]

/-- Decimal digits of a natural number, most significant first, as written by
Go's integer marshalling. -/
def natDigits (n : Nat) : List Char :=
  natDigitsAux (n + 1) n

/-- JSON encoding of a Go `int`: decimal digits with a leading minus sign for
negative values. -/
def encInt (i : Int) : List Char :=
  if i < 0 then '-' :: natDigits (-i).toNat else natDigits i.toNat

/-- Characters opening the serialised struct up to the `type` field's value:
`{"type":`. -/
def jsonTypeKey : List Char :=
  ['\x7b', '"', 't', 'y', 'p', 'e', '"', ':']

/-- Characters between the `type` value and the `content` value:
`,"content":`. -/
def jsonContentKey : List Char :=
  [',', '"', 'c', 'o', 'n', 't', 'e', 'n', 't', '"', ':']

/-- Characters between the `content` value and the `from` value: `,"from":`. -/
def jsonFromKey : List Char :=
  [',', '"', 'f', 'r', 'o', 'm', '"', ':']

/-- Closing brace of the serialised struct. -/
def jsonClose : List Char :=
  ['\x7d']

/-- Bytes produced by `json.NewEncoder(conn).Encode(msg)` for a `Message`:
the struct's fields in declaration order (`type`, `content`, `from`) followed
by the encoder's trailing newline. -/
def encodeMsg (m : Message) : List Char :=
  jsonTypeKey ++ encStr m.type ++
  jsonContentKey ++ encStr m.content ++
  jsonFromKey ++ encInt m.«from» ++ jsonClose ++ ['\n']

/-- Value of a single-character JSON escape (`\"`, `\\`, `\/`, `\n`, `\r`,
`\t`, `\b`, `\f`), if legal. -/
def unescChar (c : Char) : Option Char :=
  if c = '"' then some '"'
  else if c = '\\' then some '\\'
  else if c = '/' then some '/'
  else if c = 'n' then some '\n'
  else if c = 'r' then some '\r'
  else if c = 't' then some '\t'
  else if c = 'b' then some '\x08'
  else if c = 'f' then some '\x0c'
  else none

/-- Numeric value of a hexadecimal digit, if the character is one. -/
def hexVal (c : Char) : Option Nat :=
  if '0' ≤ c ∧ c ≤ '9' then some (c.toNat - '0'.toNat)
  else if 'a' ≤ c ∧ c ≤ 'f' then some (c.toNat - 'a'.toNat + 10)
  else if 'A' ≤ c ∧ c ≤ 'F' then some (c.toNat - 'A'.toNat + 10)
  else none

/-- Parse the body of a JSON string (everything after the opening quote) up to
and including the closing quote, undoing the escapes; returns the decoded
characters and the remaining input.  On a `\u` escape whose code point is not
a Unicode scalar value `Char.ofNat` falls back to a default character where
Go's decoder substitutes U+FFFD; the two decoders agree on everything the
encoder emits. -/
def parseStringBody : List Char → Option (List Char × List Char)
  | [] => none
  | c :: cs =>
    if c = '"' then some ([], cs)
    else if c = '\\' then
      match cs with
      | 'u' :: h1 :: h2 :: h3 :: h4 :: cs' =>
        match hexVal h1, hexVal h2, hexVal h3, hexVal h4 with
        | some a, some b, some d, some e =>
          match parseStringBody cs' with
          | some (s, r) => some (Char.ofNat (((a * 16 + b) * 16 + d) * 16 + e) :: s, r)
          | none => none
        | _, _, _, _ => none
      | k :: cs' =>
        match unescChar k with
        | some d =>
          match parseStringBody cs' with
          | some (s, r) => some (d :: s, r)
          | none => none
        | none => none
      | [] => none
    else
      match parseStringBody cs with
      | some (s, r) => some (c :: s, r)
      | none => none

/-- Parse a JSON string literal, opening quote included. -/
def parseJString : List Char → Option (List Char × List Char)
  | '"' :: cs => parseStringBody cs
  | _ => none

/-- Go's `Char.isDigit` test on decimal digits, used by the number parser. -/
def isDigitCh (c : Char) : Bool :=
  '0' ≤ c && c ≤ '9'

/-- Accumulating decimal-number parser: consumes the maximal digit run. -/
def parseDigitsAux : List Char → Nat → Nat × List Char
  | [], acc => (acc, [])
  | c :: cs, acc =>
    if isDigitCh c then parseDigitsAux cs (acc * 10 + (c.toNat - '0'.toNat))
    else (acc, c :: cs)

/-- Parse a nonempty run of decimal digits. -/
def parseNat : List Char → Option (Nat × List Char)
  | [] => none
  | c :: cs =>
    if isDigitCh c then some (parseDigitsAux (c :: cs) 0) else none

/-- Parse a JSON integer: optional minus sign followed by decimal digits. -/
def parseInt : List Char → Option (Int × List Char)
  | [] => none
  | c :: cs =>
    if c = '-' then (parseNat cs).map (fun p => (-(p.1 : Int), p.2))
    else (parseNat (c :: cs)).map (fun p => ((p.1 : Int), p.2))

/-- Expect the input to start with the given literal characters; returns the
remaining input. -/
def expectLit : List Char → List Char → Option (List Char)
  | [], s => some s
  | _ :: _, [] => none
  | p :: ps, c :: cs => if c = p then expectLit ps cs else none

/-- Decoding of one `Message` from the stream, as `json.NewDecoder(conn).Decode`
does for values produced by the encoder: the canonical serialised shape of the
struct, returning the message together with the unconsumed remainder of the
stream (the value's trailing newline is left for the next decode, which Go's
decoder skips as inter-value whitespace). -/
def decodeMsg (s : List Char) : Option (Message × List Char) := do
  let s0 := s.dropWhile (fun c => c.isWhitespace)
  let s1 ← expectLit jsonTypeKey s0
  let (t, s2) ← parseJString s1
  let s3 ← expectLit jsonContentKey s2
  let (c, s4) ← parseJString s3
  let s5 ← expectLit jsonFromKey s4
  let (f, s6) ← parseInt s5
  let s7 ← expectLit jsonClose s6
  pure ({ type := String.mk t, content := String.mk c, «from» := f }, s7)

/-- Registration of a peer (main.go lines 106–109): the address and the
connection are inserted together under the same identifier. -/
def register (n : Node) (id : Int) (address : String) (c : Conn) : Node :=
  { n with Peers := mapInsert n.Peers id address, conn := mapInsert n.conn id c }

/-- Possible failure of `connectToPeer`, mirroring the error returned by
`net.Dial`. -/
inductive ConnErr where
  | dialFailed
  deriving DecidableEq, Repr

/-- Method `connectToPeer` (main.go lines 100–112).  The outcome of `net.Dial`
is passed in as `dial`: on dial failure the error is returned to the caller and
the node is unchanged; on success the address and connection are registered
together under `id`. -/
def connectToPeer (n : Node) (id : Int) (address : String) (dial : Option Conn) :
    Node × Option ConnErr :=
  match dial with
  | none => (n, some ConnErr.dialFailed)
  | some c => (register n id address c, none)

/-- Method `sendMessage` (main.go lines 114–128): look up the target's
connection; if absent, log the error and do nothing else; otherwise encode the
message onto that connection.  The write itself is modelled as succeeding (a
failing `Encode` would only add a log line).  The node state is returned
unchanged — the method never mutates the registry. -/
def sendMessage (n : Node) (targetID : Int) (msg : Message) : Node × List Event :=
  match mapLookup n.conn targetID with
  | none => (n, [Event.logNoConn targetID])
  | some c => (n, [Event.write c (encodeMsg msg)])

/-- Dispatch of one decoded message, the `switch msg.Type` body of
`handleConnection` (main.go lines 80–96).  The `task` branch's call
`n.sendMessage(msg.From, …)` is recorded as an `Event.send`; `resolve` maps it
to the low-level effects of `sendMessage`. -/
def dispatch (n : Node) (msg : Message) : List Event :=
  if msg.type = "heartbeat" then
    if !n.IsMaster then [Event.logHeartbeatFrom msg.«from»] else []
  else if msg.type = "task" then
    [Event.logTaskFrom msg.«from» msg.content, Event.sleep,
     Event.send msg.«from»
       { type := "result", content := "Processed: " ++ msg.content, «from» := n.ID }]
  else if msg.type = "result" then
    [Event.logResultFrom msg.«from» msg.content]
  else []

/-- Resolution of recorded send-path invocations against the node's registry:
each `Event.send t m` becomes the effects of `sendMessage n t m`; every other
event stands for itself. -/
def resolve (n : Node) : List Event → List Event
  | [] => []
  | Event.send t m :: es => (sendMessage n t m).2 ++ resolve n es
  | e :: es => e :: resolve n es

/-- Receive loop of `handleConnection` (main.go lines 72–98) over a stream of
decode outcomes (`none` = `decoder.Decode` returned an error): dispatch each
decoded message in order and return at the first decode failure. -/
def handleConnection (n : Node) : List (Option Message) → List Event
  | [] => []
  | none :: _ => []
  | some m :: rest => dispatch n m ++ handleConnection n rest

/-- Events dispatched for a list of messages, in order. -/
def dispatchAll (n : Node) : List Message → List Event
  | [] => []
  | m :: ms => dispatch n m ++ dispatchAll n ms

/-- One tick of the heartbeat loop body (main.go lines 133–140): a send-path
invocation per registered peer, in registry order, carrying a `heartbeat`
message tagged with the local identifier (`Content` is omitted in the Go
literal, hence empty). -/
def sendHeartbeats (n : Node) : List Event :=
  n.Peers.map (fun p => Event.send p.1 { type := "heartbeat", content := "", «from» := n.ID })

/-- One heartbeat tick as gated by `Start` (main.go lines 64–66): the
broadcaster only runs when the node is master. -/
def startHeartbeatTick (n : Node) : List Event :=
  if n.IsMaster then sendHeartbeats n else []

/-- Core operations that can touch a node's state, used to describe reachable
states: an outbound connect (with its dial outcome), a manual send, a
heartbeat tick, and delivery of one decoded message to the handler. -/
inductive Op where
  | connect (id : Int) (address : String) (dial : Option Conn)
  | send (target : Int) (msg : Message)
  | heartbeatTick
  | deliver (msg : Message)
  deriving DecidableEq, Repr

/-- State transition of one core operation.  Only a successful connect writes
to the registry; `sendMessage` returns its state unchanged, and the heartbeat
tick and the handler only produce events. -/
def applyOp (n : Node) : Op → Node
  | Op.connect id address dial => (connectToPeer n id address dial).1
  | Op.send t m => (sendMessage n t m).1
  | Op.heartbeatTick => n
  | Op.deliver _ => n

/-- State after a sequence of core operations. -/
def applyOps (n : Node) (ops : List Op) : Node :=
  ops.foldl applyOp n

/-- Identifier a connect operation registers, if the operation is a connect
whose dial succeeds. -/
def opConnectsId : Op → Option Int
  | Op.connect id _ (some _) => some id
  | _ => none

/-- Test that a character list does not begin with a decimal digit, so a
greedy digit parse stops exactly there. -/
def noDigitHead : List Char → Bool
  | [] => true
  | c :: _ => !(isDigitCh c)

/-- Test whether an event writes bytes on a connection. -/
def eventIsWrite : Event → Bool
  | Event.write _ _ => true
  | _ => false

/-! ### Codec lemmas -/

theorem hexVal_digitChar (n : Nat) (h : n < 16) : hexVal (Nat.digitChar n) = some n := by
  interval_cases n <;> rfl

theorem isDigitCh_digitChar (n : Nat) (h : n < 10) : isDigitCh (Nat.digitChar n) = true := by
  interval_cases n <;> rfl

theorem digitChar_toNat (n : Nat) (h : n < 10) : (Nat.digitChar n).toNat - '0'.toNat = n := by
  interval_cases n <;> rfl

theorem parseStringBody_escape (s : List Char) (rest : List Char) :
    parseStringBody (escape s ++ '"' :: rest) = some (s, rest) := by
  induction s with
  | nil =>
    rw [show escape [] ++ '"' :: rest = '"' :: rest from rfl, parseStringBody.eq_def]
    simp
  | cons c s' ih =>
    by_cases h1 : c = '"'
    · subst h1
      rw [show escape ('"' :: s') ++ '"' :: rest
          = '\\' :: '"' :: (escape s' ++ '"' :: rest) from by
        rw [show escape ('"' :: s') = escChar '"' ++ escape s' from rfl]; rfl]
      rw [parseStringBody.eq_def]
      simp [unescChar, ih]
    by_cases h2 : c = '\\'
    · subst h2
      rw [show escape ('\\' :: s') ++ '"' :: rest
          = '\\' :: '\\' :: (escape s' ++ '"' :: rest) from by
        rw [show escape ('\\' :: s') = escChar '\\' ++ escape s' from rfl]; rfl]
      rw [parseStringBody.eq_def]
      simp [unescChar, ih]
    by_cases h3 : c = '\n'
    · subst h3
      rw [show escape ('\n' :: s') ++ '"' :: rest
          = '\\' :: 'n' :: (escape s' ++ '"' :: rest) from by
        rw [show escape ('\n' :: s') = escChar '\n' ++ escape s' from rfl]; rfl]
      rw [parseStringBody.eq_def]
      simp [unescChar, ih]
    by_cases h4 : c = '\r'
    · subst h4
      rw [show escape ('\r' :: s') ++ '"' :: rest
          = '\\' :: 'r' :: (escape s' ++ '"' :: rest) from by
        rw [show escape ('\r' :: s') = escChar '\r' ++ escape s' from rfl]; rfl]
      rw [parseStringBody.eq_def]
      simp [unescChar, ih]
    by_cases h5 : c = '\t'
    · subst h5
      rw [show escape ('\t' :: s') ++ '"' :: rest
          = '\\' :: 't' :: (escape s' ++ '"' :: rest) from by
        rw [show escape ('\t' :: s') = escChar '\t' ++ escape s' from rfl]; rfl]
      rw [parseStringBody.eq_def]
      simp [unescChar, ih]
    by_cases h6 : c.toNat < 32
    · have e : escape (c :: s') ++ '"' :: rest
          = '\\' :: 'u' :: '0' :: '0' :: Nat.digitChar (c.toNat / 16) ::
            Nat.digitChar (c.toNat % 16) :: (escape s' ++ '"' :: rest) := by
        rw [show escape (c :: s') = escChar c ++ escape s' from rfl, escChar]
        simp only [if_neg h1, if_neg h2, if_neg h3, if_neg h4, if_neg h5, if_pos h6]
        rfl
      have hd1 : hexVal (Nat.digitChar (c.toNat / 16)) = some (c.toNat / 16) :=
        hexVal_digitChar _ (by omega)
      have hd2 : hexVal (Nat.digitChar (c.toNat % 16)) = some (c.toNat % 16) :=
        hexVal_digitChar _ (by omega)
      have h0 : hexVal '0' = some 0 := rfl
      rw [e, parseStringBody.eq_def]
      simp [h0, hd1, hd2, ih]
      have hv : c.toNat / 16 * 16 + c.toNat % 16 = c.toNat := by omega
      rw [hv, Char.ofNat_toNat]
    by_cases h7 : c = '<'
    · subst h7
      rw [show escape ('<' :: s') ++ '"' :: rest
          = '\\' :: 'u' :: '0' :: '0' :: '3' :: 'c' :: (escape s' ++ '"' :: rest) from by
        rw [show escape ('<' :: s') = escChar '<' ++ escape s' from rfl]; rfl]
      rw [parseStringBody.eq_def]
      simp [hexVal, ih]
    by_cases h8 : c = '>'
    · subst h8
      rw [show escape ('>' :: s') ++ '"' :: rest
          = '\\' :: 'u' :: '0' :: '0' :: '3' :: 'e' :: (escape s' ++ '"' :: rest) from by
        rw [show escape ('>' :: s') = escChar '>' ++ escape s' from rfl]; rfl]
      rw [parseStringBody.eq_def]
      simp [hexVal, ih]
    by_cases h9 : c = '&'
    · subst h9
      rw [show escape ('&' :: s') ++ '"' :: rest
          = '\\' :: 'u' :: '0' :: '0' :: '2' :: '6' :: (escape s' ++ '"' :: rest) from by
        rw [show escape ('&' :: s') = escChar '&' ++ escape s' from rfl]; rfl]
      rw [parseStringBody.eq_def]
      simp [hexVal, ih]
    by_cases h10 : c = ' '
    · subst h10
      rw [show escape (' ' :: s') ++ '"' :: rest
          = '\\' :: 'u' :: '2' :: '0' :: '2' :: '8' :: (escape s' ++ '"' :: rest) from by
        rw [show escape (' ' :: s') = escChar ' ' ++ escape s' from rfl]; rfl]
      rw [parseStringBody.eq_def]
      simp [hexVal, ih]
    by_cases h11 : c = ' '
    · subst h11
      rw [show escape (' ' :: s') ++ '"' :: rest
          = '\\' :: 'u' :: '2' :: '0' :: '2' :: '9' :: (escape s' ++ '"' :: rest) from by
        rw [show escape (' ' :: s') = escChar ' ' ++ escape s' from rfl]; rfl]
      rw [parseStringBody.eq_def]
      simp [hexVal, ih]
    · have e : escape (c :: s') ++ '"' :: rest = c :: (escape s' ++ '"' :: rest) := by
        rw [show escape (c :: s') = escChar c ++ escape s' from rfl, escChar]
        simp only [if_neg h1, if_neg h2, if_neg h3, if_neg h4, if_neg h5, if_neg h6,
          if_neg h7, if_neg h8, if_neg h9, if_neg h10, if_neg h11]
        rfl
      rw [e, parseStringBody.eq_def]
      simp [h1, h2, ih]

theorem natDigitsAux_irrel : ∀ (f g n : Nat), n < f → n < g → natDigitsAux f n = natDigitsAux g n := by
  intro f
  induction f with
  | zero => intro g n h; omega
  | succ f ihf =>
    intro g n hf hg
    cases g with
    | zero => omega
    | succ g =>
      by_cases h : n < 10
      · simp [natDigitsAux, h]
      · simp only [natDigitsAux, if_neg h]
        rw [ihf g (n / 10) (by omega) (by omega)]

theorem natDigits_lt {n : Nat} (h : n < 10) : natDigits n = [Nat.digitChar n] := by
  simp [natDigits, natDigitsAux, h]

theorem natDigits_ge {n : Nat} (h : 10 ≤ n) :
    natDigits n = natDigits (n / 10) ++ [Nat.digitChar (n % 10)] := by
  unfold natDigits
  rw [show natDigitsAux (n + 1) n = natDigitsAux n (n / 10) ++ [Nat.digitChar (n % 10)] from by
    simp only [natDigitsAux, if_neg (by omega : ¬ n < 10)]]
  rw [natDigitsAux_irrel n (n / 10 + 1) (n / 10) (by omega) (by omega)]

theorem natDigits_digit : ∀ n, ∀ c ∈ natDigits n, isDigitCh c = true := by
  intro n
  induction n using Nat.strong_induction_on with
  | _ n ih =>
    by_cases h : n < 10
    · rw [natDigits_lt h]
      intro c hc
      simp only [List.mem_singleton] at hc
      subst hc
      exact isDigitCh_digitChar n h
    · rw [natDigits_ge (by omega)]
      intro c hc
      rcases List.mem_append.mp hc with h1 | h1
      · exact ih (n / 10) (by omega) c h1
      · simp only [List.mem_singleton] at h1
        subst h1
        exact isDigitCh_digitChar _ (by omega)

theorem natDigits_ne_nil (n : Nat) : natDigits n ≠ [] := by
  by_cases h : n < 10
  · rw [natDigits_lt h]; simp
  · rw [natDigits_ge (by omega)]; simp

theorem parseDigitsAux_stop (rest : List Char) (acc : Nat) (h : noDigitHead rest = true) :
    parseDigitsAux rest acc = (acc, rest) := by
  cases rest with
  | nil => rfl
  | cons c cs =>
    simp only [noDigitHead, Bool.not_eq_true'] at h
    simp [parseDigitsAux, h]

theorem parseDigitsAux_natDigits : ∀ (n acc : Nat) (rest : List Char),
    parseDigitsAux (natDigits n ++ rest) acc
      = parseDigitsAux rest (acc * 10 ^ (natDigits n).length + n) := by
  intro n
  induction n using Nat.strong_induction_on with
  | _ n ih =>
    intro acc rest
    by_cases h : n < 10
    · rw [natDigits_lt h]
      have hd : isDigitCh (Nat.digitChar n) = true := isDigitCh_digitChar n h
      have hv : (Nat.digitChar n).toNat - 48 = n := digitChar_toNat n h
      simp [parseDigitsAux, hd, hv]
    · have h10 : 10 ≤ n := by omega
      rw [natDigits_ge h10, List.append_assoc]
      simp only [List.singleton_append]
      rw [ih (n / 10) (by omega) acc (Nat.digitChar (n % 10) :: rest)]
      have hd : isDigitCh (Nat.digitChar (n % 10)) = true := isDigitCh_digitChar _ (by omega)
      simp only [List.singleton_append, parseDigitsAux, hd, if_pos]
      congr 1
      rw [digitChar_toNat (n % 10) (by omega)]
      simp only [List.length_append, List.length_singleton, pow_succ]
      have hA : n / 10 * 10 + n % 10 = n := by omega
      calc (acc * 10 ^ (natDigits (n / 10)).length + n / 10) * 10 + n % 10
          = acc * (10 ^ (natDigits (n / 10)).length * 10) + (n / 10 * 10 + n % 10) := by ring
        _ = acc * (10 ^ (natDigits (n / 10)).length * 10) + n := by rw [hA]

theorem parseNat_natDigits (n : Nat) (rest : List Char) (h : noDigitHead rest = true) :
    parseNat (natDigits n ++ rest) = some (n, rest) := by
  obtain ⟨d, ds, hds⟩ : ∃ d ds, natDigits n = d :: ds := by
    cases hnd : natDigits n with
    | nil => exact absurd hnd (natDigits_ne_nil n)
    | cons d ds => exact ⟨d, ds, rfl⟩
  have hd : isDigitCh d = true := natDigits_digit n d (by rw [hds]; exact List.mem_cons_self d ds)
  rw [hds, List.cons_append]
  rw [show parseNat (d :: (ds ++ rest))
      = if isDigitCh d then some (parseDigitsAux (d :: (ds ++ rest)) 0) else none from rfl]
  rw [if_pos hd, ← List.cons_append, ← hds, parseDigitsAux_natDigits]
  rw [parseDigitsAux_stop rest _ h]
  simp

theorem isDigitCh_ne_dash {c : Char} (h : isDigitCh c = true) : ¬(c = '-') := by
  intro he
  subst he
  simp [isDigitCh] at h

theorem parseInt_encInt (i : Int) (rest : List Char) (h : noDigitHead rest = true) :
    parseInt (encInt i ++ rest) = some (i, rest) := by
  by_cases hi : i < 0
  · rw [encInt, if_pos hi, List.cons_append]
    rw [show parseInt ('-' :: (natDigits (-i).toNat ++ rest))
        = (parseNat (natDigits (-i).toNat ++ rest)).map (fun p => (-(p.1 : Int), p.2)) from by
      simp [parseInt]]
    rw [parseNat_natDigits _ _ h]
    simp only [Option.map_some', Option.some.injEq, Prod.mk.injEq]
    exact ⟨by omega, trivial⟩
  · obtain ⟨d, ds, hds⟩ : ∃ d ds, natDigits i.toNat = d :: ds := by
      cases hnd : natDigits i.toNat with
      | nil => exact absurd hnd (natDigits_ne_nil _)
      | cons d ds => exact ⟨d, ds, rfl⟩
    have hd : isDigitCh d = true :=
      natDigits_digit _ d (by rw [hds]; exact List.mem_cons_self d ds)
    have hdash : ¬(d = '-') := isDigitCh_ne_dash hd
    rw [encInt, if_neg hi, hds, List.cons_append]
    rw [show parseInt (d :: (ds ++ rest))
        = if d = '-' then (parseNat (ds ++ rest)).map (fun p => (-(p.1 : Int), p.2))
          else (parseNat (d :: (ds ++ rest))).map (fun p => ((p.1 : Int), p.2)) from by
      simp [parseInt]]
    rw [if_neg hdash, ← List.cons_append, ← hds, parseNat_natDigits _ _ h]
    simp only [Option.map_some', Option.some.injEq, Prod.mk.injEq]
    exact ⟨by omega, trivial⟩

theorem expectLit_append : ∀ (p s : List Char), expectLit p (p ++ s) = some s := by
  intro p
  induction p with
  | nil => intro s; rfl
  | cons c p ih => intro s; simp [expectLit, ih]

theorem parseJString_encStr (s : String) (r : List Char) :
    parseJString (encStr s ++ r) = some (s.data, r) := by
  rw [show encStr s ++ r = '"' :: (escape s.data ++ ('"' :: r)) from by
    simp [encStr]]
  rw [show parseJString ('"' :: (escape s.data ++ ('"' :: r)))
      = parseStringBody (escape s.data ++ ('"' :: r)) from rfl]
  exact parseStringBody_escape s.data r

theorem String_mk_data (s : String) : String.mk s.data = s := rfl

theorem decodeMsg_encodeMsg (m : Message) (rest : List Char) :
    decodeMsg (encodeMsg m ++ rest) = some (m, '\n' :: rest) := by
  have e : encodeMsg m ++ rest
      = jsonTypeKey ++ (encStr m.type ++ (jsonContentKey ++ (encStr m.content ++
        (jsonFromKey ++ (encInt m.«from» ++ (jsonClose ++ ('\n' :: rest))))))) := by
    simp [encodeMsg]
  have hpi : parseInt (encInt m.«from» ++ (jsonClose ++ ('\n' :: rest)))
      = some (m.«from», jsonClose ++ ('\n' :: rest)) := parseInt_encInt _ _ rfl
  have hdw : ∀ X : List Char,
      (jsonTypeKey ++ X).dropWhile (fun c => c.isWhitespace) = jsonTypeKey ++ X := by
    intro X
    rw [jsonTypeKey]
    simp [List.dropWhile]
  unfold decodeMsg
  rw [e, hdw]
  simp [expectLit_append, parseJString_encStr, hpi, String_mk_data]

/-! ### Registry lemmas -/

theorem mapLookup_insert_self (m : List (Int × α)) (k : Int) (v : α) :
    mapLookup (mapInsert m k v) k = some v := by
  induction m with
  | nil => simp [mapInsert, mapLookup]
  | cons p m ih =>
    obtain ⟨k2, v2⟩ := p
    by_cases h : k2 = k
    · subst h; simp [mapInsert, mapLookup]
    · simp [mapInsert, mapLookup, h, ih]

theorem mapLookup_insert_ne (m : List (Int × α)) (k k' : Int) (v : α) (h : ¬(k' = k)) :
    mapLookup (mapInsert m k' v) k = mapLookup m k := by
  induction m with
  | nil => simp [mapInsert, mapLookup, h]
  | cons p m ih =>
    obtain ⟨k2, v2⟩ := p
    by_cases h2 : k2 = k'
    · subst h2; simp [mapInsert, mapLookup, h]
    · simp [mapInsert, mapLookup, h2, ih]

theorem mapKeys_insert (m : List (Int × α)) (k : Int) (v : α) :
    mapKeys (mapInsert m k v) = if k ∈ mapKeys m then mapKeys m else mapKeys m ++ [k] := by
  induction m with
  | nil => simp [mapInsert, mapKeys]
  | cons p m ih =>
    obtain ⟨k2, v2⟩ := p
    by_cases h : k2 = k
    · subst h; simp [mapInsert, mapKeys]
    · rw [show mapInsert ((k2, v2) :: m) k v = (k2, v2) :: mapInsert m k v from by
        simp [mapInsert, h]]
      rw [show mapKeys ((k2, v2) :: mapInsert m k v) = k2 :: mapKeys (mapInsert m k v) from rfl]
      rw [show mapKeys ((k2, v2) :: m) = k2 :: mapKeys m from rfl]
      rw [ih]
      by_cases hm : k ∈ mapKeys m
      · rw [if_pos hm, if_pos (by simp [hm])]
      · rw [if_neg hm, if_neg (by simp [hm, Ne.symm h]), List.cons_append]

theorem nodup_mapKeys_insert (m : List (Int × α)) (k : Int) (v : α)
    (h : (mapKeys m).Nodup) : (mapKeys (mapInsert m k v)).Nodup := by
  rw [mapKeys_insert]
  by_cases hm : k ∈ mapKeys m
  · simpa [hm] using h
  · rw [if_neg hm]
    refine List.Nodup.append h (List.nodup_singleton k) ?_
    intro a ha hb
    simp only [List.mem_singleton] at hb
    subst hb
    exact hm ha

theorem mapKeys_insert_eq (m1 : List (Int × α)) (m2 : List (Int × β)) (k : Int) (a : α) (b : β)
    (h : mapKeys m1 = mapKeys m2) :
    mapKeys (mapInsert m1 k a) = mapKeys (mapInsert m2 k b) := by
  rw [mapKeys_insert, mapKeys_insert, h]

theorem sendMessage_fst (n : Node) (t : Int) (m : Message) : (sendMessage n t m).1 = n := by
  unfold sendMessage
  cases mapLookup n.conn t <;> rfl

theorem applyOp_inv (n : Node) (op : Op)
    (h1 : (mapKeys n.Peers).Nodup) (h2 : mapKeys n.Peers = mapKeys n.conn) :
    (mapKeys (applyOp n op).Peers).Nodup ∧
      mapKeys (applyOp n op).Peers = mapKeys (applyOp n op).conn := by
  cases op with
  | connect id addr dial =>
    cases dial with
    | none => exact ⟨h1, h2⟩
    | some c =>
      refine ⟨?_, ?_⟩
      · exact nodup_mapKeys_insert _ _ _ h1
      · exact mapKeys_insert_eq _ _ _ _ _ h2
  | send t m =>
    rw [show applyOp n (Op.send t m) = n from sendMessage_fst n t m]
    exact ⟨h1, h2⟩
  | heartbeatTick => exact ⟨h1, h2⟩
  | deliver m => exact ⟨h1, h2⟩

theorem applyOps_inv_aux : ∀ (ops : List Op) (n : Node),
    (mapKeys n.Peers).Nodup → mapKeys n.Peers = mapKeys n.conn →
    (mapKeys (applyOps n ops).Peers).Nodup ∧
      mapKeys (applyOps n ops).Peers = mapKeys (applyOps n ops).conn := by
  intro ops
  induction ops with
  | nil => intro n h1 h2; exact ⟨h1, h2⟩
  | cons op ops ih =>
    intro n h1 h2
    have h := applyOp_inv n op h1 h2
    exact ih (applyOp n op) h.1 h.2

theorem applyOps_inv (i : Int) (mast : Bool) (ops : List Op) :
    (mapKeys (applyOps (NewNode i mast) ops).Peers).Nodup ∧
      mapKeys (applyOps (NewNode i mast) ops).Peers
        = mapKeys (applyOps (NewNode i mast) ops).conn :=
  applyOps_inv_aux ops (NewNode i mast) (by simp [NewNode, mapKeys]) (by simp [NewNode, mapKeys])

theorem applyOp_conn_lookup (n : Node) (op : Op) (id : Int)
    (h : ¬(opConnectsId op = some id)) :
    mapLookup (applyOp n op).conn id = mapLookup n.conn id := by
  cases op with
  | connect id' addr dial =>
    cases dial with
    | none => rfl
    | some c =>
      have hne : ¬(id' = id) := by
        intro he
        subst he
        exact h rfl
      exact mapLookup_insert_ne _ _ _ _ hne
  | send t m => rw [show applyOp n (Op.send t m) = n from sendMessage_fst n t m]
  | heartbeatTick => rfl
  | deliver m => rfl

theorem applyOps_conn_lookup : ∀ (ops : List Op) (n : Node) (id : Int),
    (∀ op ∈ ops, ¬(opConnectsId op = some id)) →
    mapLookup (applyOps n ops).conn id = mapLookup n.conn id := by
  intro ops
  induction ops with
  | nil => intro n id _; rfl
  | cons op ops ih =>
    intro n id h
    rw [show applyOps n (op :: ops) = applyOps (applyOp n op) ops from rfl]
    rw [ih (applyOp n op) id (fun o ho => h o (List.mem_cons_of_mem _ ho))]
    exact applyOp_conn_lookup n op id (h op (List.mem_cons_self _ _))

theorem applyOp_ID_IsMaster (n : Node) (op : Op) :
    (applyOp n op).ID = n.ID ∧ (applyOp n op).IsMaster = n.IsMaster := by
  cases op with
  | connect id addr dial => cases dial with
    | none => exact ⟨rfl, rfl⟩
    | some c => exact ⟨rfl, rfl⟩
  | send t m => rw [show applyOp n (Op.send t m) = n from sendMessage_fst n t m]; exact ⟨rfl, rfl⟩
  | heartbeatTick => exact ⟨rfl, rfl⟩
  | deliver m => exact ⟨rfl, rfl⟩

theorem applyOps_ID_IsMaster : ∀ (ops : List Op) (n : Node),
    (applyOps n ops).ID = n.ID ∧ (applyOps n ops).IsMaster = n.IsMaster := by
  intro ops
  induction ops with
  | nil => intro n; exact ⟨rfl, rfl⟩
  | cons op ops ih =>
    intro n
    have h1 := ih (applyOp n op)
    have h2 := applyOp_ID_IsMaster n op
    exact ⟨h1.1.trans h2.1, h1.2.trans h2.2⟩

/-! ### Claim theorems -/

/-- C1: for every decoded message with type "task" and content `c` arriving
from node `f`, the handler emits exactly one reply through the send path — a
"result" message whose content is "Processed: " ++ c and whose `from` field is
the local node's identifier, addressed to `f` — and it does so after the fixed
processing delay (the `sleep` event precedes the send). -/
theorem task_reply_exactly_one (n : Node) (c : String) (f : Int) :
    dispatch n { type := "task", content := c, «from» := f }
      = [Event.logTaskFrom f c, Event.sleep,
         Event.send f { type := "result", content := "Processed: " ++ c, «from» := n.ID }] :=
  rfl

/-- C2: decoding the byte stream produced by encoding any `Message` value
(any type string, any content string including empty, any integer `from`)
yields the original message again; the encoder's trailing newline is left on
the stream as inter-value whitespace. -/
theorem decode_encode_roundtrip (m : Message) :
    decodeMsg (encodeMsg m) = some (m, ['\n']) := by
  have h := decodeMsg_encodeMsg m []
  simpa using h

/-- C4: registering a connection `c` under `id` makes the send path's lookup
return it (`(c, true)` in Go terms), and on any node reachable by operations
none of which registers `id`, the lookup for `id` returns `found = false`
(modelled as `none`). -/
theorem register_lookup_spec (n : Node) (id : Int) (a : String) (c : Conn)
    (i : Int) (mast : Bool) (ops : List Op)
    (hid : ∀ op ∈ ops, ¬(opConnectsId op = some id)) :
    mapLookup (register n id a c).conn id = some c ∧
    mapLookup (applyOps (NewNode i mast) ops).conn id = none := by
  constructor
  · exact mapLookup_insert_self _ _ _
  · rw [applyOps_conn_lookup ops (NewNode i mast) id hid]
    rfl

theorem register_lookup_spec_witness :
    mapLookup (register (NewNode 0 false) 1 "addr" 5).conn 1 = some 5 ∧
    mapLookup (applyOps (NewNode 0 false)
      [Op.connect 2 "x" (some 9), Op.heartbeatTick]).conn 1 = none :=
  register_lookup_spec (NewNode 0 false) 1 "addr" 5 0 false
    [Op.connect 2 "x" (some 9), Op.heartbeatTick] (by decide)

/-- C5: on every node reachable by a sequence of core operations each peer
identifier occurs at most once in the address map and at most once in the
connection map (their key lists have no duplicates), and registering an
identifier that already exists replaces its prior address and connection. -/
theorem registry_overwrite_unique (i : Int) (mast : Bool) (ops : List Op)
    (n : Node) (id : Int) (a : String) (c : Conn) :
    (mapKeys (applyOps (NewNode i mast) ops).Peers).Nodup ∧
    (mapKeys (applyOps (NewNode i mast) ops).conn).Nodup ∧
    mapLookup (register n id a c).Peers id = some a ∧
    mapLookup (register n id a c).conn id = some c := by
  have h := applyOps_inv i mast ops
  exact ⟨h.1, h.2 ▸ h.1, mapLookup_insert_self _ _ _, mapLookup_insert_self _ _ _⟩

/-- C6: sending to a target with no registered connection only logs the error:
the node state is unchanged, the produced effects are exactly the error log,
and in particular no bytes are written to any connection. -/
theorem send_no_connection_noop (n : Node) (t : Int) (m : Message)
    (h : mapLookup n.conn t = none) :
    (sendMessage n t m).1 = n ∧
    (sendMessage n t m).2 = [Event.logNoConn t] ∧
    ((sendMessage n t m).2.filter eventIsWrite) = [] := by
  unfold sendMessage
  rw [h]
  exact ⟨rfl, rfl, rfl⟩

theorem send_no_connection_noop_witness :
    (sendMessage (NewNode 0 false) 2 { type := "task", content := "x", «from» := 0 }).1
      = NewNode 0 false ∧
    (sendMessage (NewNode 0 false) 2 { type := "task", content := "x", «from» := 0 }).2
      = [Event.logNoConn 2] ∧
    ((sendMessage (NewNode 0 false) 2
        { type := "task", content := "x", «from» := 0 }).2.filter eventIsWrite) = [] :=
  send_no_connection_noop (NewNode 0 false) 2 { type := "task", content := "x", «from» := 0 } rfl

/-- C7: `connectToPeer` returns the dial error to the caller when the
transport-level connect fails and leaves the registry unchanged; on success it
returns no error and the address and connection are registered together under
the peer's identifier. -/
theorem connectToPeer_error_or_registers (n : Node) (id : Int) (addr : String) :
    connectToPeer n id addr none = (n, some ConnErr.dialFailed) ∧
    ∀ c : Conn,
      (connectToPeer n id addr (some c)).2 = none ∧
      mapLookup (connectToPeer n id addr (some c)).1.Peers id = some addr ∧
      mapLookup (connectToPeer n id addr (some c)).1.conn id = some c := by
  refine ⟨rfl, fun c => ⟨rfl, ?_, ?_⟩⟩
  · exact mapLookup_insert_self _ _ _
  · exact mapLookup_insert_self _ _ _

/-- C8: the receive loop dispatches exactly the messages decoded before the
first decode failure and returns there; no message after the first failure is
ever dispatched, whatever follows on the stream. -/
theorem handler_stops_at_first_decode_failure (n : Node) (pre : List Message)
    (post : List (Option Message)) :
    handleConnection n (pre.map some ++ none :: post) = dispatchAll n pre := by
  induction pre with
  | nil => rfl
  | cons m ms ih => simp [handleConnection, dispatchAll, ih]

/-- C10: on every node reachable by a sequence of core operations, the
peer-address map and the connection map hold exactly the same keys: an
identifier has an address entry if and only if it has a connection entry. -/
theorem peers_conn_keys_agree (i : Int) (mast : Bool) (ops : List Op) :
    mapKeys (applyOps (NewNode i mast) ops).Peers
      = mapKeys (applyOps (NewNode i mast) ops).conn :=
  (applyOps_inv i mast ops).2

/-- C3: on any reachable master node, one heartbeat interval issues through
the send path exactly one heartbeat per registered peer identifier — the tick
is precisely the list of send-path invocations over the registry's key list
(which has no duplicates), so there are exactly N of them for N registered
peers, each with type "heartbeat" and `from` equal to the master's
identifier. -/
theorem heartbeat_broadcast_per_peer (i : Int) (ops : List Op) (n : Node)
    (hn : n = applyOps (NewNode i true) ops) :
    n.IsMaster = true ∧
    startHeartbeatTick n
      = (mapKeys n.Peers).map
          (fun id => Event.send id { type := "heartbeat", content := "", «from» := n.ID }) ∧
    (startHeartbeatTick n).length = n.Peers.length ∧
    (mapKeys n.Peers).Nodup := by
  have hm : n.IsMaster = true := by
    rw [hn]
    exact (applyOps_ID_IsMaster ops (NewNode i true)).2
  refine ⟨hm, ?_, ?_, ?_⟩
  · rw [startHeartbeatTick, if_pos hm, sendHeartbeats, mapKeys, List.map_map]
    rfl
  · rw [startHeartbeatTick, if_pos hm, sendHeartbeats, List.length_map]
  · rw [hn]
    exact (applyOps_inv i true ops).1

theorem heartbeat_broadcast_per_peer_witness :
    (applyOps (NewNode 1 true) [Op.connect 2 "a" (some 7)]).IsMaster = true ∧
    (startHeartbeatTick (applyOps (NewNode 1 true) [Op.connect 2 "a" (some 7)])).length
      = (applyOps (NewNode 1 true) [Op.connect 2 "a" (some 7)]).Peers.length ∧
    (mapKeys (applyOps (NewNode 1 true) [Op.connect 2 "a" (some 7)]).Peers).Nodup :=
  ⟨(heartbeat_broadcast_per_peer 1 [Op.connect 2 "a" (some 7)] _ rfl).1,
   (heartbeat_broadcast_per_peer 1 [Op.connect 2 "a" (some 7)] _ rfl).2.2.1,
   (heartbeat_broadcast_per_peer 1 [Op.connect 2 "a" (some 7)] _ rfl).2.2.2⟩

/-- C9: the reply to a "task" message is routed through the node's own peer
registry keyed by the message's `from` field, not over the connection the task
arrived on: when the processing node has no registered connection for the
sender's identifier the resolved handler effects are just the task log, the
delay and the send path's error log — no "result" bytes are written to any
connection — and the receive loop simply continues with the rest of the
stream. -/
theorem task_reply_requires_registered_sender (n : Node) (c : String) (f : Int)
    (rest : List (Option Message)) (h : mapLookup n.conn f = none) :
    resolve n (dispatch n { type := "task", content := c, «from» := f })
      = [Event.logTaskFrom f c, Event.sleep, Event.logNoConn f] ∧
    (resolve n (dispatch n { type := "task", content := c, «from» := f })).filter
        eventIsWrite = [] ∧
    handleConnection n (some { type := "task", content := c, «from» := f } :: rest)
      = dispatch n { type := "task", content := c, «from» := f }
        ++ handleConnection n rest := by
  have hs : (sendMessage n f
        { type := "result", content := "Processed: " ++ c, «from» := n.ID }).2
      = [Event.logNoConn f] := by
    unfold sendMessage
    rw [h]
  have hr : resolve n (dispatch n { type := "task", content := c, «from» := f })
      = Event.logTaskFrom f c :: Event.sleep ::
        ((sendMessage n f
          { type := "result", content := "Processed: " ++ c, «from» := n.ID }).2 ++ []) := rfl
  refine ⟨?_, ?_, rfl⟩
  · rw [hr, hs]
    rfl
  · rw [hr, hs]
    rfl

theorem task_reply_requires_registered_sender_witness :
    resolve (NewNode 0 false)
        (dispatch (NewNode 0 false) { type := "task", content := "x", «from» := 2 })
      = [Event.logTaskFrom 2 "x", Event.sleep, Event.logNoConn 2] ∧
    (resolve (NewNode 0 false)
        (dispatch (NewNode 0 false) { type := "task", content := "x", «from» := 2 })).filter
        eventIsWrite = [] ∧
    handleConnection (NewNode 0 false)
        (some { type := "task", content := "x", «from» := 2 } :: [])
      = dispatch (NewNode 0 false) { type := "task", content := "x", «from» := 2 }
        ++ handleConnection (NewNode 0 false) [] :=
  task_reply_requires_registered_sender (NewNode 0 false) "x" 2 [] rfl
